import Mathlib

/-!
Verification development for the BoardGameGeek trend scraper (`src/main.js`).

The source is a Crawlee/Apify actor.  The parts with decision logic are
embedded shallowly below, translated from the source file:
* `extractBggId`, `extractGameRecordHtml` — HTML field extractor
  (`extractGameFromPageCheerio`, main.js lines 81–123);
* `normalizeBggApi`, `mergeRecord`, `extractGameFromPageCheerio` — API
  normalization, record reconciliation and the key/value (blob) write
  (main.js lines 47–78 and 126–148);
* `listingPageRows` — listing row extraction (main.js lines 172–195);
* `transformRequest`, `handleRequest`, `ReachableReq` — link enqueue policy
  and crawl dynamics of the Cheerio crawler (main.js lines 152–170, 260–281).

External collaborators (the WHATWG URL library, the network fetch, xml2js)
are modelled as function parameters or as the `Option`-typed outcomes the
source observes from them; simple executable stand-ins (`hostOf`,
`resolveUrlModel`) are provided so that concrete inputs can be evaluated.
-/

/-- Models the JavaScript string expression `a || b` (`""` is falsy). -/
def jsOrS (a b : String) : String := if a = "" then b else a

/-- Models `a || b` where `a` is a string property that may be `undefined`. -/
def jsOrO (a : Option String) (b : String) : String :=
  match a with
  | some s => jsOrS s b
  | none => b

/-- Models `.replace(/[^\d]/g, '')`: keep only the decimal digits. -/
def digitsOnly (s : String) : String := String.mk (s.data.filter Char.isDigit)

/-- Models `.slice(0, n)`: the first `n` characters of `s`. -/
def sliceChars (s : String) (n : Nat) : String := String.mk (s.data.take n)

/-- Models `.trim()`: strip leading and trailing whitespace. -/
def trimStr (s : String) : String :=
  String.mk (((s.data.dropWhile Char.isWhitespace).reverse.dropWhile
    Char.isWhitespace).reverse)

/-- Substring containment test: does `s` contain `pat`?  Used to model the
glob patterns and the page-classification regular expression. -/
def containsSub (pat s : String) : Bool :=
  s.data.tails.any (fun t => pat.data.isPrefixOf t)

/-- Character-wise lower-casing, modelling the `i` flag of a JS regex. -/
def lowerStr (s : String) : String := String.mk (s.data.map Char.toLower)

/-- The JavaScript value shapes this program actually passes around for the
scalar enrichment fields: `undefined`, `null`, strings, and the
attribute-merged XML nodes produced by xml2js (an attribute map, or an
array of attribute maps when an element repeats). -/
inductive JVal where
  | undef
  | nullv
  | str (s : String)
  | obj (attrs : List (String × String))
  | arr (elems : List (List (String × String)))
deriving DecidableEq

/-- JavaScript truthiness for the shapes of `JVal`: `undefined` and `null`
are falsy, a string is truthy iff non-empty, objects and arrays are truthy. -/
def JVal.truthy : JVal → Bool
  | .undef => false
  | .nullv => false
  | .str s => s ≠ ""
  | .obj _ => true
  | .arr _ => true

/-- Models `a || b` on JavaScript values. -/
def jsOr (a b : JVal) : JVal := if a.truthy then a else b

/-! ### The BGG id pattern (main.js lines 91 and 97)

Line 91 matches the canonical link against
`/\/boardgame\/(?:.*)\/(\d+)|\/boardgame\/(\d+)/` and takes `m[1] || m[2]`;
line 97 matches the `og:url` meta value against
`/\/boardgame\/(?:.*)\/(\d+)/` only.  JS regex search tries start positions
left to right; at a position the first alternative is tried first, its
greedy `.*` backtracks from the end, so it captures the digit run after the
last `/` that is followed by a digit. -/

/-- The literal `/boardgame/` segment both regexes begin with. -/
def bgSeg : List Char := "/boardgame/".data

/-- Maximal digit run at the front of `l` (the `(\d+)` capture). -/
def digitRun (l : List Char) : List Char := l.takeWhile Char.isDigit

/-- The backtracking search of `(?:.*)\/(\d+)`: the digit run after the
last `/` in `l` that is immediately followed by a digit. -/
def lastSlashDigits : List Char → Option (List Char)
  | [] => none
  | c :: rest =>
    match lastSlashDigits rest with
    | some r => some r
    | none => if c = '/' ∧ digitRun rest ≠ [] then some (digitRun rest) else none

/-- `str.match(/\/boardgame\/(?:.*)\/(\d+)|\/boardgame\/(\d+)/)` followed by
`m[1] || m[2]` — the pattern used on the canonical link (line 91). -/
def jsMatchBoth : List Char → Option (List Char)
  | [] => none
  | l@(_ :: rest) =>
    if bgSeg.isPrefixOf l then
      match lastSlashDigits (l.drop bgSeg.length) with
      | some d => some d
      | none =>
        if digitRun (l.drop bgSeg.length) ≠ [] then some (digitRun (l.drop bgSeg.length))
        else jsMatchBoth rest
    else jsMatchBoth rest

/-- `str.match(/\/boardgame\/(?:.*)\/(\d+)/)` followed by `m2[1]` — the
pattern used on the `og:url` fallback (line 97). -/
def jsMatchSlug : List Char → Option (List Char)
  | [] => none
  | l@(_ :: rest) =>
    if bgSeg.isPrefixOf l then
      match lastSlashDigits (l.drop bgSeg.length) with
      | some d => some d
      | none => jsMatchSlug rest
    else jsMatchSlug rest

/-- Identifier resolution, main.js lines 88–99: try the canonical link with
the two-alternative pattern; if that leaves `bggId` empty, fall back to the
`og:url` meta value with the single-alternative pattern. -/
def extractBggId (canonicalHref ogUrlMeta : Option String) : String :=
  let canonical := jsOrO canonicalHref ""
  let id1 :=
    if canonical = "" then ""
    else
      match jsMatchBoth canonical.data with
      | some d => String.mk d
      | none => ""
  if id1 = "" then
    let metaId := jsOrO ogUrlMeta ""
    match jsMatchSlug metaId.data with
    | some d => String.mk d
    | none => ""
  else id1

/-! ### HTML field extractor (main.js lines 81–123)

A game page document is abstracted to the outcomes of the exact Cheerio
queries the source performs: `.first().text()` results are strings (empty
for an empty selection), `.attr(...)` results may be `undefined`
(`Option`), `.map(...).get()` results are lists of element texts. -/

structure GamePageDoc where
  h1Text : String
  ogTitle : Option String
  canonicalHref : Option String
  ogUrlMeta : Option String
  ratingText : String
  votersText : String
  yearText : String
  designerTexts : List String
  mechanicTexts : List String
  categoryTexts : List String
  descriptionText : String
deriving DecidableEq

/-- The record built at main.js lines 111–123.  The JS object literal has
no `geek_rating` key; reading it yields `undefined`, so the field is typed
`JVal` and the HTML extractor sets it to `.undef`.  `avg_rating` and
`num_voters` are also typed `JVal` because reconciliation (line 132–133)
can replace them with raw xml2js nodes. -/
structure GameRecord where
  name : String
  bgg_id : String
  year : String
  avg_rating : JVal
  num_voters : JVal
  geek_rating : JVal
  designers : List String
  mechanics : List String
  categories : List String
  description : String
  url : String
  extracted_at : String
deriving DecidableEq

/-- The pure HTML extraction of `extractGameFromPageCheerio`
(main.js lines 86–123), before the optional API enrichment. -/
def extractGameRecordHtml (doc : GamePageDoc) (url now : String) : GameRecord :=
  let name := jsOrS (trimStr doc.h1Text) (jsOrO doc.ogTitle "")
  let bggId := extractBggId doc.canonicalHref doc.ogUrlMeta
  let avgRating := trimStr doc.ratingText
  let numVoters := digitsOnly doc.votersText
  let year := digitsOnly doc.yearText
  { name := name
    bgg_id := bggId
    year := year
    avg_rating := JVal.str (jsOrS avgRating "")
    num_voters := JVal.str (jsOrS numVoters "")
    geek_rating := JVal.undef
    designers := doc.designerTexts.map trimStr
    mechanics := doc.mechanicTexts.map trimStr
    categories := doc.categoryTexts.map trimStr
    description := jsOrS (sliceChars (trimStr doc.descriptionText) 2000) ""
    url := url
    extracted_at := now }

/-! ### The parsed BGG API payload (xml2js with `explicitArray: false`,
`mergeAttrs: true`) and `normalizeBggApi` (main.js lines 47–78) -/

/-- An XML element whose only relevant content is a `value` attribute;
the attribute may be absent (`undefined`). -/
structure ValueAttr where
  value : Option String
deriving DecidableEq

/-- `t.name`: an array when several name elements were present (xml2js
arrays are built from repeated elements, hence non-empty — modelled as a
head plus a tail), a single object, or absent. -/
inductive NameVal where
  | arr (hd : ValueAttr) (tl : List ValueAttr)
  | one (n : ValueAttr)
  | missing
deriving DecidableEq

/-- A `link` element: a `type` discriminator plus optional `value` / `name`
attributes. -/
structure BggLink where
  type : String
  value : Option String
  name : Option String
deriving DecidableEq

/-- `t.link`: an array of link elements, a single one, or absent.  Array
entries are kept optional because the loop guards each with `if (!l)`. -/
inductive LinkVal where
  | arr (ls : List (Option BggLink))
  | one (l : BggLink)
  | missing
deriving DecidableEq

structure BggRanks where
  rank : JVal
deriving DecidableEq

structure BggRatings where
  ranks : Option BggRanks
  average : JVal
  usersrated : JVal
deriving DecidableEq

structure BggStatistics where
  ratings : Option BggRatings
deriving DecidableEq

/-- `json.thing` as the source reads it. -/
structure BggThing where
  id : Option String
  name : NameVal
  yearpublished : Option ValueAttr
  description : Option String
  minplayers : Option ValueAttr
  maxplayers : Option ValueAttr
  playingtime : Option ValueAttr
  link : LinkVal
  statistics : Option BggStatistics
deriving DecidableEq

/-- The parse result of `fetchBggApi`: a JSON tree whose only consulted
member is `thing`. -/
structure BggJson where
  thing : Option BggThing
deriving DecidableEq

/-- `const value = l.value || l.name || '';` (main.js line 72). -/
def linkValue (l : BggLink) : String := jsOrO l.value (jsOrO l.name "")

/-- The loop of main.js lines 69–76: fold the link elements into the
designer / mechanic / category collections according to the `type`
discriminator. -/
def normalizeBggLinks (links : List (Option BggLink)) :
    List String × List String × List String :=
  links.foldl
    (fun acc ol =>
      match ol with
      | none => acc
      | some l =>
        let value := linkValue l
        let acc1 :=
          if l.type = "boardgamedesigner" then (acc.1 ++ [value], acc.2.1, acc.2.2) else acc
        let acc2 :=
          if l.type = "boardgamemechanic" then (acc1.1, acc1.2.1 ++ [value], acc1.2.2) else acc1
        if l.type = "boardgamecategory" then (acc2.1, acc2.2.1, acc2.2.2 ++ [value]) else acc2)
    ([], [], [])

/-- The compact normalized object of main.js lines 48–78. -/
structure NormalizedBgg where
  bgg_id : Option String
  name : Option String
  year : Option String
  description : String
  min_players : Option String
  max_players : Option String
  playing_time : Option String
  designers : List String
  mechanics : List String
  categories : List String
  geek_rating : JVal
  avg_rating : JVal
  num_voters : JVal
deriving DecidableEq

/-- `normalizeBggApi(json)`: `null` when the fetch failed (`json` is
`null`) or when the payload lacks a `thing` member; otherwise the compact
normalized object.  Field by field, this mirrors main.js lines 51–77. -/
def normalizeBggApi (json : Option BggJson) : Option NormalizedBgg :=
  match json with
  | none => none
  | some j =>
    match j.thing with
    | none => none
    | some t =>
      let links :=
        match t.link with
        | .arr ls => ls
        | .one l => [some l]
        | .missing => []
      let cols := normalizeBggLinks links
      some
        { bgg_id := t.id
          name :=
            match t.name with
            | .arr hd _ => hd.value
            | .one n => some (jsOrO n.value "")
            | .missing => some ""
          year :=
            match t.yearpublished with
            | some y => y.value
            | none => some ""
          description := t.description.getD ""
          min_players :=
            match t.minplayers with
            | some v => v.value
            | none => some ""
          max_players :=
            match t.maxplayers with
            | some v => v.value
            | none => some ""
          playing_time :=
            match t.playingtime with
            | some v => v.value
            | none => some ""
          designers := cols.1
          mechanics := cols.2.1
          categories := cols.2.2
          geek_rating :=
            match t.statistics with
            | some st =>
              match st.ratings with
              | some rt =>
                match rt.ranks with
                | some rk => rk.rank
                | none => JVal.nullv
              | none => JVal.nullv
            | none => JVal.nullv
          avg_rating :=
            match t.statistics with
            | some st =>
              match st.ratings with
              | some rt => rt.average
              | none => JVal.nullv
            | none => JVal.nullv
          num_voters :=
            match t.statistics with
            | some st =>
              match st.ratings with
              | some rt => rt.usersrated
              | none => JVal.nullv
            | none => JVal.nullv }

/-- The reconciliation `Object.assign(record, {...})` of main.js
lines 130–137. -/
def mergeRecord (record : GameRecord) (n : NormalizedBgg) : GameRecord :=
  { record with
    geek_rating := jsOr n.geek_rating (jsOr record.geek_rating (JVal.str ""))
    avg_rating := jsOr n.avg_rating record.avg_rating
    num_voters := jsOr n.num_voters record.num_voters
    designers := if n.designers.isEmpty then record.designers else n.designers
    mechanics := if n.mechanics.isEmpty then record.mechanics else n.mechanics
    categories := if n.categories.isEmpty then record.categories else n.categories }

/-- One attempted key/value (blob) store write: `kv.setValue(key, apiJson)`
(main.js line 140).  The payload is the raw parse result variable. -/
structure KvWrite where
  key : String
  payload : Option BggJson
deriving DecidableEq

/-- The whole item-page pipeline of `extractGameFromPageCheerio`
(main.js lines 81–148) given the outcome of the API fetch: the final
record, the attempted key/value writes, and the warnings logged.  The
`kvPutFails` flag models whether `kv.setValue` throws; the `try`/`catch`
at lines 139–143 turns a failure into a logged warning only. -/
def extractGameFromPageCheerio (useBggApi : Bool) (doc : GamePageDoc)
    (url now : String) (fetchBggApi : String → Option BggJson)
    (kvPutFails : Bool) : GameRecord × List KvWrite × List String :=
  let record := extractGameRecordHtml doc url now
  if useBggApi ∧ record.bgg_id ≠ "" then
    let apiJson := fetchBggApi record.bgg_id
    match normalizeBggApi apiJson with
    | none => (record, [], [])
    | some n =>
      let merged := mergeRecord record n
      (merged, [⟨"games/" ++ record.bgg_id, apiJson⟩],
        if kvPutFails then ["Failed to save BGG API JSON to KV"] else [])
  else (record, [], [])

/-! ### Listing page rows (main.js lines 172–195) -/

/-- One candidate row container, abstracted to the outcomes of the queries
the loop body performs on it. -/
structure ListingRowDom where
  linkHref : Option String
  linkText : String
  rankText : String
  hotnessText : String
deriving DecidableEq

/-- The lightweight row record pushed at main.js line 193 (only rows with
a resolvable absolute link are pushed, so `url` is a plain string). -/
structure RowRecord where
  name : String
  url : String
  rank : String
  hotness : String
  source_page : String
  extracted_at : String
deriving DecidableEq

/-- `const abs = link ? resolveUrl(url, link) : null;` (main.js line 178).
`resolveUrl` delegates to the external URL library, so it is passed in as
a function returning `none` where `new URL` would throw. -/
def rowAbsLink (resolveUrl : String → String → Option String)
    (pageUrl : String) (row : ListingRowDom) : Option String :=
  match row.linkHref with
  | some l => if l = "" then none else resolveUrl pageUrl l
  | none => none

/-- The row loop of `listingPageHandler` (main.js lines 173–195): build a
row record per container and push it only when the link resolved. -/
def listingPageRows (resolveUrl : String → String → Option String)
    (pageUrl now : String) (rows : List ListingRowDom) : List RowRecord :=
  rows.filterMap fun row =>
    match rowAbsLink resolveUrl pageUrl row with
    | some abs =>
      some
        { name := jsOrS (trimStr row.linkText) ""
          url := abs
          rank := jsOrS (digitsOnly (trimStr row.rankText)) ""
          hotness := jsOrS (trimStr row.hotnessText) ""
          source_page := pageUrl
          extracted_at := now }
    | none => none

/-! ### Link enqueue policy and crawl dynamics (Cheerio crawler,
main.js lines 152–170 and 260–281) -/

/-- A queued request: its URL and the `userData.startHost` it carries. -/
structure Req where
  url : String
  startHost : Option String
deriving DecidableEq

/-- `startRequests` (main.js lines 277–279): each seed URL is parsed; on
success the request carries `startHost`, on failure empty user data. -/
def mkStartRequest (parseHost : String → Option String) (u : String) : Req :=
  { url := u, startHost := parseHost u }

/-- The `transformRequestFunction` of the Cheerio `listingPageHandler`
(main.js lines 159–169) with `followInternalOnly` as the mode flag.
`parseHost` models `u => new URL(u).host`, `none` where `new URL` throws;
the surrounding `try`/`catch` maps any throw to rejection (`null`). -/
def transformRequest (parseHost : String → Option String)
    (followInternalOnly : Bool) (req : Req) (candidate : String) :
    Option String :=
  if followInternalOnly then
    match
      (match req.startHost with
       | some h => if h = "" then parseHost req.url else some h
       | none => parseHost req.url) with
    | none => none
    | some startHost =>
      match parseHost candidate with
      | none => none
      | some ch => if ch = startHost then some candidate else none
  else some candidate

/-- Model of the globs `**/boardgame/*`, `**/thing/*`, `**/boardgame/*/*`
(main.js line 158).  `**` matches any prefix and `*` any (possibly empty)
slash-free run, so every URL the globs accept contains one of these two
segments; the bound on how many path segments may follow is dropped, which
only enlarges the modelled candidate set. -/
def matchesEnqueueGlobs (u : String) : Bool :=
  containsSub "/boardgame/" u || containsSub "/thing/" u

/-- The page classifier `/\/boardgame\/|\/thing\//i.test(url)`
(main.js line 269); the `i` flag is modelled by lower-casing the URL. -/
def isGamePageUrl (u : String) : Bool :=
  containsSub "/boardgame/" (lowerStr u) || containsSub "/thing/" (lowerStr u)

/-- The `enqueueLinks` call of the Cheerio `listingPageHandler`
(main.js lines 157–170): glob-filter the candidates, apply the transform,
and enqueue.  This call passes no `userData` option, so every enqueued
request carries no `startHost`. -/
def listingEnqueues (parseHost : String → Option String)
    (followInternalOnly : Bool) (req : Req) (cands : List String) :
    List Req :=
  (cands.filter matchesEnqueueGlobs).filterMap fun c =>
    (transformRequest parseHost followInternalOnly req c).map
      fun u => { url := u, startHost := none }

/-- The Cheerio crawler's `requestHandler` (main.js lines 265–274), viewed
through the requests it enqueues: a game page enqueues nothing, a listing
page enqueues through `listingEnqueues`.  `web` maps a page URL to the
absolute candidate link URLs found on it. -/
def handleRequest (parseHost : String → Option String)
    (followInternalOnly : Bool) (web : String → List String) (req : Req) :
    List Req :=
  if isGamePageUrl req.url then []
  else listingEnqueues parseHost followInternalOnly req (web req.url)

/-- Requests reachable in a crawl with `followInternalOnly` enabled
(`SameOriginOnly` mode), from the given seed URLs. -/
inductive ReachableReq (parseHost : String → Option String)
    (web : String → List String) (seeds : List String) : Req → Prop where
  | seed : ∀ u, u ∈ seeds →
      ReachableReq parseHost web seeds (mkStartRequest parseHost u)
  | step : ∀ r r', ReachableReq parseHost web seeds r →
      r' ∈ handleRequest parseHost true web r →
      ReachableReq parseHost web seeds r'

/-! ### Executable stand-ins for the external URL library -/

/-- Does `s` start with `pre`?  (List-based so that it evaluates by
reduction.) -/
def strStarts (pre s : String) : Bool := pre.data.isPrefixOf s.data

/-- Model of `u => new URL(u).host` for absolute http(s) URLs; `none`
where `new URL` would throw. -/
def hostOf (u : String) : Option String :=
  if strStarts "http://" u then
    let h := (u.data.drop 7).takeWhile (fun c => c ≠ '/')
    if h = [] then none else some (String.mk h)
  else if strStarts "https://" u then
    let h := (u.data.drop 8).takeWhile (fun c => c ≠ '/')
    if h = [] then none else some (String.mk h)
  else none

/-- `scheme://host` prefix of an absolute http(s) URL. -/
def urlOrigin (u : String) : Option String :=
  if strStarts "http://" u then
    some (String.mk ("http://".data ++ (u.data.drop 7).takeWhile (fun c => c ≠ '/')))
  else if strStarts "https://" u then
    some (String.mk ("https://".data ++ (u.data.drop 8).takeWhile (fun c => c ≠ '/')))
  else none

/-- Simple executable stand-in for `(base, href) => new URL(href, base)`
(main.js lines 27–29): absolute links kept, root-relative links resolved
against the base origin, everything else unresolvable. -/
def resolveUrlModel (base href : String) : Option String :=
  if strStarts "http://" href || strStarts "https://" href then some href
  else if strStarts "/" href then
    match urlOrigin base with
    | some o => some (String.mk (o.data ++ href.data))
    | none => none
  else none

/-! ### Helper lemmas -/

theorem digitsOnly_all (s : String) : (digitsOnly s).data.all Char.isDigit = true := by
  simp only [digitsOnly, List.all_eq_true]
  intro c hc
  exact (List.mem_filter.mp hc).2

theorem lastSlashDigits_cons_none {c : Char} {rest : List Char}
    (h : lastSlashDigits (c :: rest) = none) : lastSlashDigits rest = none := by
  cases hr : lastSlashDigits rest with
  | none => rfl
  | some r => simp [lastSlashDigits, hr] at h

theorem lastSlashDigits_append_none :
    ∀ (t m : List Char), lastSlashDigits (t ++ m) = none → lastSlashDigits m = none := by
  intro t
  induction t with
  | nil => intro m h; simpa using h
  | cons c t ih => intro m h; exact ih m (lastSlashDigits_cons_none h)

theorem lastSlashDigits_some_ne_nil :
    ∀ {m d : List Char}, lastSlashDigits m = some d → d ≠ [] := by
  intro m
  induction m with
  | nil => intro d h; simp [lastSlashDigits] at h
  | cons c rest ih =>
    intro d h
    cases hr : lastSlashDigits rest with
    | some r =>
      rw [show lastSlashDigits (c :: rest) = some r by simp [lastSlashDigits, hr]] at h
      cases h
      exact ih hr
    | none =>
      simp only [lastSlashDigits, hr] at h
      split at h
      · cases h
        next hcond => exact hcond.2
      · cases h

theorem suffix_drop_of_suffix :
    ∀ (t m : List Char) (k : Nat), ∃ t', (t ++ m).drop k = t' ++ m.drop k := by
  intro t
  induction t with
  | nil =>
    intro m k
    exact ⟨[], by simp⟩
  | cons c t ih =>
    intro m k
    cases k with
    | zero => exact ⟨c :: t, by simp⟩
    | succ k =>
      obtain ⟨t', ht'⟩ := ih m k
      refine ⟨t' ++ (m.drop k).take 1, ?_⟩
      have hdd : m.drop (k + 1) = (m.drop k).drop 1 := by
        rw [List.drop_drop]
      rw [List.cons_append, List.drop_succ_cons, ht', List.append_assoc, hdd,
        List.take_append_drop]

theorem jsMatchSlug_decomp :
    ∀ {m d : List Char}, jsMatchSlug m = some d →
      ∃ t m₁, m = t ++ m₁ ∧ bgSeg.isPrefixOf m₁ = true
        ∧ lastSlashDigits (m₁.drop bgSeg.length) = some d := by
  intro m
  induction m with
  | nil => intro d h; simp [jsMatchSlug] at h
  | cons c rest ih =>
    intro d h
    unfold jsMatchSlug at h
    split at h
    · split at h
      · next hd => exact ⟨[], c :: rest, rfl, by assumption, by rw [hd]; exact congrArg some (Option.some.inj h)⟩
      · obtain ⟨t, m₁, hrest, hp₁, hd₁⟩ := ih h
        exact ⟨c :: t, m₁, by rw [List.cons_append, ← hrest], hp₁, hd₁⟩
    · obtain ⟨t, m₁, hrest, hp₁, hd₁⟩ := ih h
      exact ⟨c :: t, m₁, by rw [List.cons_append, ← hrest], hp₁, hd₁⟩

theorem jsMatchBoth_of_slug :
    ∀ {m d : List Char}, jsMatchSlug m = some d → jsMatchBoth m = some d := by
  intro m
  induction m with
  | nil => intro d h; simp [jsMatchSlug] at h
  | cons c rest ih =>
    intro d h
    unfold jsMatchSlug at h
    unfold jsMatchBoth
    split at h
    · next hp =>
      rw [if_pos hp]
      cases hd : lastSlashDigits ((c :: rest).drop bgSeg.length) with
      | some d' =>
        rw [hd] at h
        exact h
      | none =>
        rw [hd] at h
        have h' : jsMatchSlug rest = some d := h
        exfalso
        obtain ⟨t, m₁, hrest, hp₁, hd₁⟩ := jsMatchSlug_decomp h'
        subst hrest
        obtain ⟨t', ht'⟩ := suffix_drop_of_suffix (c :: t) m₁ bgSeg.length
        have hnone : lastSlashDigits (m₁.drop bgSeg.length) = none := by
          apply lastSlashDigits_append_none t'
          rw [← ht']
          simpa using hd
        rw [hd₁] at hnone
        exact Option.noConfusion hnone
    · next hp =>
      rw [if_neg hp]
      exact ih h

theorem isPrefixOf_map_toLower :
    ∀ (p l : List Char), p.map Char.toLower = p → p.isPrefixOf l = true →
      p.isPrefixOf (l.map Char.toLower) = true := by
  intro p
  induction p with
  | nil => intro l _ _; simp [List.isPrefixOf]
  | cons a p ih =>
    intro l hmap hpre
    cases l with
    | nil => simp [List.isPrefixOf] at hpre
    | cons b l' =>
      simp only [List.map_cons, List.cons.injEq] at hmap
      simp only [List.isPrefixOf, List.map_cons, Bool.and_eq_true, beq_iff_eq] at hpre ⊢
      refine ⟨?_, ih l' hmap.2 hpre.2⟩
      rw [← hpre.1, hmap.1]

theorem mem_tails_map (f : Char → Char) :
    ∀ (l t : List Char), t ∈ l.tails → t.map f ∈ (l.map f).tails := by
  intro l
  induction l with
  | nil =>
    intro t ht
    simp only [List.tails, List.mem_singleton] at ht
    simp [List.tails, ht]
  | cons a l ih =>
    intro t ht
    rw [List.tails_cons] at ht
    rcases List.mem_cons.mp ht with h | h
    · subst h
      rw [List.map_cons, List.tails_cons]
      exact List.mem_cons_self _ _
    · rw [List.map_cons, List.tails_cons]
      exact List.mem_cons_of_mem _ (ih t h)

theorem containsSub_toLower (pat s : String)
    (hp : pat.data.map Char.toLower = pat.data) :
    containsSub pat s = true → containsSub pat (lowerStr s) = true := by
  intro h
  unfold containsSub at h ⊢
  obtain ⟨t, ht, hpre⟩ := List.any_eq_true.mp h
  apply List.any_eq_true.mpr
  refine ⟨t.map Char.toLower, ?_, ?_⟩
  · exact mem_tails_map Char.toLower s.data t ht
  · exact isPrefixOf_map_toLower pat.data t hp hpre

theorem glob_implies_game (u : String) :
    matchesEnqueueGlobs u = true → isGamePageUrl u = true := by
  intro h
  unfold matchesEnqueueGlobs at h
  unfold isGamePageUrl
  rcases Bool.or_eq_true_iff.mp h with h' | h'
  · exact Bool.or_eq_true_iff.mpr (Or.inl (containsSub_toLower _ u (by decide) h'))
  · exact Bool.or_eq_true_iff.mpr (Or.inr (containsSub_toLower _ u (by decide) h'))

theorem transformRequest_some {parseHost : String → Option String} {req : Req}
    {c u' : String} (h : transformRequest parseHost true req c = some u') :
    u' = c ∧ ∃ sh, parseHost c = some sh
      ∧ (match req.startHost with
         | some h0 => if h0 = "" then parseHost req.url else some h0
         | none => parseHost req.url) = some sh := by
  unfold transformRequest at h
  rw [if_pos rfl] at h
  split at h
  · exact Option.noConfusion h
  · next sh heff =>
    split at h
    · exact Option.noConfusion h
    · next ch hch =>
      split at h
      · next hcmp =>
        cases h
        exact ⟨rfl, sh, by rw [hch, hcmp], heff⟩
      · exact Option.noConfusion h

theorem reachable_listing_is_seed (parseHost : String → Option String)
    (web : String → List String) (seeds : List String) :
    ∀ r, ReachableReq parseHost web seeds r → isGamePageUrl r.url = false →
      ∃ s, s ∈ seeds ∧ r = mkStartRequest parseHost s := by
  intro r hr
  induction hr with
  | seed u hu => intro _; exact ⟨u, hu, rfl⟩
  | step r r' _ hmem _ =>
    intro hgame
    exfalso
    unfold handleRequest at hmem
    split at hmem
    · simp at hmem
    · unfold listingEnqueues at hmem
      obtain ⟨c, hc, heq⟩ := List.mem_filterMap.mp hmem
      have hglob : matchesEnqueueGlobs c = true := (List.mem_filter.mp hc).2
      obtain ⟨u', htr, hr'⟩ := Option.map_eq_some'.mp heq
      have huc : u' = c := (transformRequest_some htr).1
      have hurl : r'.url = c := by rw [← hr', huc]
      rw [hurl] at hgame
      rw [glob_implies_game c hglob] at hgame
      exact Bool.noConfusion hgame

/-! ### Concrete inputs used by witnesses and counterexamples -/

/-- An item page whose canonical link carries id 42 and whose other
selectors are empty. -/
def docApi : GamePageDoc :=
  ⟨"Catan", none, some "https://example.test/boardgame/42", none,
    "", "", "", [], [], [], ""⟩

/-- A minimal parsed API payload that does contain an item. -/
def thingApi : BggThing :=
  ⟨some "42", NameVal.missing, none, none, none, none, none,
    LinkVal.missing, none⟩

def jsonApi : BggJson := ⟨some thingApi⟩

/-- An HTML-derived record with non-trivial collections, as reconciliation
input. -/
def recC : GameRecord :=
  ⟨"Bob Game", "42", "1995", JVal.str "7.5", JVal.str "100", JVal.undef,
    ["Bob", "Alice"], ["area control"], [], "desc", "u", "t"⟩

/-- A normalized API record: non-empty designers, empty mechanics,
non-empty categories, present average, absent voter count. -/
def normC : NormalizedBgg :=
  ⟨some "42", some "X", some "1995", "", some "", some "", some "",
    ["Alice"], [], ["Strategy"], JVal.obj [("value", "123")],
    JVal.obj [("value", "6.9")], JVal.nullv⟩

/-! ### Claim theorems -/

/-- C1: if the API payload is `Absent` — the fetch returned `null`
(network failure, non-success status, parse failure) or the parsed payload
lacks a `thing` item, which are exactly the cases where
`normalizeBggApi` yields `none` — the pipeline's final record is the
HTML-derived record unchanged: reconciliation is the identity. -/
theorem reconcile_absent_is_identity (useBggApi : Bool) (doc : GamePageDoc)
    (url now : String) (fetchBggApi : String → Option BggJson)
    (kvPutFails : Bool)
    (h : normalizeBggApi (fetchBggApi (extractGameRecordHtml doc url now).bgg_id) = none) :
    (extractGameFromPageCheerio useBggApi doc url now fetchBggApi kvPutFails).1
      = extractGameRecordHtml doc url now
    ∧ normalizeBggApi none = none
    ∧ ∀ j : BggJson, j.thing = none → normalizeBggApi (some j) = none := by
  refine ⟨?_, rfl, ?_⟩
  · simp only [extractGameFromPageCheerio]
    split
    · rw [h]
    · rfl
  · intro j hj
    simp [normalizeBggApi, hj]

set_option maxRecDepth 16384 in
theorem reconcile_absent_is_identity_witness :
    (extractGameFromPageCheerio true docApi "u" "t" (fun _ => none) false).1
      = extractGameRecordHtml docApi "u" "t" :=
  (reconcile_absent_is_identity true docApi "u" "t" (fun _ => none) false rfl).1

theorem mergeRecord_name (r : GameRecord) (n : NormalizedBgg) :
    (mergeRecord r n).name = r.name := rfl

theorem mergeRecord_year (r : GameRecord) (n : NormalizedBgg) :
    (mergeRecord r n).year = r.year := rfl

theorem mergeRecord_description (r : GameRecord) (n : NormalizedBgg) :
    (mergeRecord r n).description = r.description := rfl

/-- C2: reconciliation never overwrites `name`, `year` or `description`:
the `Object.assign` at main.js lines 130–137 lists only the six enrichment
fields, so these three always keep the HTML input's values, whatever the
API payload contains — both at the reconciliation step and through the
whole pipeline. -/
theorem html_fields_not_overwritten (r : GameRecord) (n : NormalizedBgg)
    (useBggApi : Bool) (doc : GamePageDoc) (url now : String)
    (fetch : String → Option BggJson) (kvFail : Bool) :
    (mergeRecord r n).name = r.name
    ∧ (mergeRecord r n).year = r.year
    ∧ (mergeRecord r n).description = r.description
    ∧ (extractGameFromPageCheerio useBggApi doc url now fetch kvFail).1.name
        = (extractGameRecordHtml doc url now).name
    ∧ (extractGameFromPageCheerio useBggApi doc url now fetch kvFail).1.year
        = (extractGameRecordHtml doc url now).year
    ∧ (extractGameFromPageCheerio useBggApi doc url now fetch kvFail).1.description
        = (extractGameRecordHtml doc url now).description := by
  refine ⟨rfl, rfl, rfl, ?_, ?_, ?_⟩
  · simp only [extractGameFromPageCheerio]
    split
    · split
      · rfl
      · exact mergeRecord_name _ _
    · rfl
  · simp only [extractGameFromPageCheerio]
    split
    · split
      · rfl
      · exact mergeRecord_year _ _
    · rfl
  · simp only [extractGameFromPageCheerio]
    split
    · split
      · rfl
      · exact mergeRecord_description _ _
    · rfl

/-- C3: for each collection field, a non-empty API collection replaces the
HTML one exactly, and an empty API collection keeps the HTML one
(main.js lines 134–136). -/
theorem collection_field_precedence (r : GameRecord) (n : NormalizedBgg) :
    (n.designers ≠ [] → (mergeRecord r n).designers = n.designers)
    ∧ (n.designers = [] → (mergeRecord r n).designers = r.designers)
    ∧ (n.mechanics ≠ [] → (mergeRecord r n).mechanics = n.mechanics)
    ∧ (n.mechanics = [] → (mergeRecord r n).mechanics = r.mechanics)
    ∧ (n.categories ≠ [] → (mergeRecord r n).categories = n.categories)
    ∧ (n.categories = [] → (mergeRecord r n).categories = r.categories) := by
  refine ⟨?_, ?_, ?_, ?_, ?_, ?_⟩ <;> intro h <;>
    simp [mergeRecord, List.isEmpty_iff, h]

theorem collection_field_precedence_witness :
    (mergeRecord recC normC).designers = normC.designers
    ∧ (mergeRecord recC normC).mechanics = recC.mechanics
    ∧ (mergeRecord recC normC).categories = normC.categories :=
  ⟨(collection_field_precedence recC normC).1 (by decide),
   (collection_field_precedence recC normC).2.2.2.1 rfl,
   (collection_field_precedence recC normC).2.2.2.2.1 (by decide)⟩

/-- C4: for the scalar enrichment fields the API value wins whenever it is
truthy (non-empty, non-null — xml2js nodes are objects and always truthy),
else the HTML value is kept (main.js lines 131–133).  For `avg_rating` and
`num_voters` the HTML value is kept verbatim.  The HTML extractor derives
no geek rating at all (the JS record has no such key, modelled `.undef`),
and line 131's trailing `|| ''` turns that into the empty-string sentinel —
the HTML-derived value in the record data model; a string-valued
`geek_rating` (the data-model shape) is also kept verbatim. -/
theorem scalar_field_precedence (r : GameRecord) (n : NormalizedBgg)
    (doc : GamePageDoc) (url now : String) :
    (n.avg_rating.truthy = true → (mergeRecord r n).avg_rating = n.avg_rating)
    ∧ (n.avg_rating.truthy = false → (mergeRecord r n).avg_rating = r.avg_rating)
    ∧ (n.num_voters.truthy = true → (mergeRecord r n).num_voters = n.num_voters)
    ∧ (n.num_voters.truthy = false → (mergeRecord r n).num_voters = r.num_voters)
    ∧ (n.geek_rating.truthy = true → (mergeRecord r n).geek_rating = n.geek_rating)
    ∧ (∀ s, r.geek_rating = JVal.str s → n.geek_rating.truthy = false →
        (mergeRecord r n).geek_rating = r.geek_rating)
    ∧ (n.geek_rating.truthy = false →
        (mergeRecord (extractGameRecordHtml doc url now) n).geek_rating
          = JVal.str "") := by
  refine ⟨?_, ?_, ?_, ?_, ?_, ?_, ?_⟩
  · intro h; simp [mergeRecord, jsOr, h]
  · intro h; simp [mergeRecord, jsOr, h]
  · intro h; simp [mergeRecord, jsOr, h]
  · intro h; simp [mergeRecord, jsOr, h]
  · intro h; simp [mergeRecord, jsOr, h]
  · intro s hs h
    have houter : (mergeRecord r n).geek_rating
        = jsOr r.geek_rating (JVal.str "") := by
      simp [mergeRecord, jsOr, h]
    rw [houter, hs]
    by_cases hse : s = ""
    · subst hse; decide
    · simp [jsOr, JVal.truthy, hse]
  · intro h
    have hrec : (extractGameRecordHtml doc url now).geek_rating = JVal.undef := rfl
    have houter : (mergeRecord (extractGameRecordHtml doc url now) n).geek_rating
        = jsOr (extractGameRecordHtml doc url now).geek_rating (JVal.str "") := by
      simp [mergeRecord, jsOr, h]
    rw [houter, hrec]
    decide

/-- A normalized API record whose statistics subtree was absent, so all
three scalar enrichment fields are falsy. -/
def normAbsent : NormalizedBgg :=
  ⟨some "42", some "", some "", "", some "", some "", some "",
    [], [], [], JVal.nullv, JVal.nullv, JVal.nullv⟩

theorem scalar_field_precedence_witness :
    (mergeRecord recC normC).avg_rating = normC.avg_rating
    ∧ (mergeRecord recC normC).num_voters = recC.num_voters
    ∧ (mergeRecord (extractGameRecordHtml docApi "u" "t") normAbsent).geek_rating
        = JVal.str "" :=
  ⟨(scalar_field_precedence recC normC docApi "u" "t").1 rfl,
   (scalar_field_precedence recC normC docApi "u" "t").2.2.2.1 rfl,
   (scalar_field_precedence recC normAbsent docApi "u" "t").2.2.2.2.2.2 rfl⟩

/-- C5 counterexample: with id 42 and a present payload, the one key/value
write uses the key `games/42` (main.js line 140), not `items/42` as the
claim states. -/
theorem kv_write_key_counterexample :
    (extractGameFromPageCheerio true docApi "u" "t" (fun _ => some jsonApi) false).2.1
      = [⟨"games/42", some jsonApi⟩]
    ∧ ("games/42" : String) ≠ "items/42" := by
  refine ⟨rfl, by decide⟩

/-- C5 amended: whenever enrichment yields a present payload for a
non-empty identifier, exactly one key/value write is attempted, keyed
`games/<id>` with the raw parse result as payload; an absent payload
attempts no write; and a write failure (swallowed by the `try`/`catch` at
main.js lines 139–143) changes neither the final record nor the write
attempt, only the logged warning. -/
theorem kv_write_exactly_once (useBggApi : Bool) (doc : GamePageDoc)
    (url now : String) (fetch : String → Option BggJson) (kvFail : Bool) :
    (∀ n : NormalizedBgg, useBggApi = true →
      (extractGameRecordHtml doc url now).bgg_id ≠ "" →
      normalizeBggApi (fetch (extractGameRecordHtml doc url now).bgg_id) = some n →
      (extractGameFromPageCheerio useBggApi doc url now fetch kvFail).2.1
        = [⟨"games/" ++ (extractGameRecordHtml doc url now).bgg_id,
            fetch (extractGameRecordHtml doc url now).bgg_id⟩])
    ∧ (normalizeBggApi (fetch (extractGameRecordHtml doc url now).bgg_id) = none →
      (extractGameFromPageCheerio useBggApi doc url now fetch kvFail).2.1 = [])
    ∧ (extractGameFromPageCheerio useBggApi doc url now fetch true).1
        = (extractGameFromPageCheerio useBggApi doc url now fetch false).1
    ∧ (extractGameFromPageCheerio useBggApi doc url now fetch true).2.1
        = (extractGameFromPageCheerio useBggApi doc url now fetch false).2.1 := by
  refine ⟨?_, ?_, ?_, ?_⟩
  · intro n hu hid hn
    simp only [extractGameFromPageCheerio]
    rw [if_pos ⟨hu, hid⟩, hn]
  · intro hn
    simp only [extractGameFromPageCheerio]
    split
    · rw [hn]
    · rfl
  · simp only [extractGameFromPageCheerio]
    split
    · split
      · rfl
      · rfl
    · rfl
  · simp only [extractGameFromPageCheerio]
    split
    · split
      · rfl
      · rfl
    · rfl

set_option maxRecDepth 16384 in
theorem kv_write_exactly_once_witness :
    (extractGameFromPageCheerio true docApi "u" "t" (fun _ => some jsonApi) false).2.1
      = [⟨"games/" ++ (extractGameRecordHtml docApi "u" "t").bgg_id, some jsonApi⟩]
    ∧ (extractGameFromPageCheerio true docApi "u" "t" (fun _ => none) false).2.1
      = [] :=
  ⟨(kv_write_exactly_once true docApi "u" "t" (fun _ => some jsonApi) false).1
      _ rfl (by decide) rfl,
   (kv_write_exactly_once true docApi "u" "t" (fun _ => none) false).2.1 rfl⟩

/-- C8: the HTML extractor is total (the Lean embedding is a plain
function, mirroring that all Cheerio accessors degrade to `''` or
`undefined` rather than throwing) and every scalar field whose selector
candidates all come up empty is the empty-string sentinel — never
null/undefined; in particular a document lacking both identifier sources
yields `bgg_id = ""`.  `avg_rating` and `num_voters` are always string
values.  (The extractor populates no geek rating; that field first appears
at reconciliation.) -/
theorem extract_sentinel_fields (doc : GamePageDoc) (url now : String) :
    (doc.canonicalHref = none → doc.ogUrlMeta = none →
      (extractGameRecordHtml doc url now).bgg_id = "")
    ∧ (trimStr doc.h1Text = "" → doc.ogTitle.getD "" = "" →
      (extractGameRecordHtml doc url now).name = "")
    ∧ (trimStr doc.ratingText = "" →
      (extractGameRecordHtml doc url now).avg_rating = JVal.str "")
    ∧ (doc.votersText = "" →
      (extractGameRecordHtml doc url now).num_voters = JVal.str "")
    ∧ (doc.yearText = "" → (extractGameRecordHtml doc url now).year = "")
    ∧ (trimStr doc.descriptionText = "" →
      (extractGameRecordHtml doc url now).description = "")
    ∧ (∃ s, (extractGameRecordHtml doc url now).avg_rating = JVal.str s)
    ∧ (∃ s, (extractGameRecordHtml doc url now).num_voters = JVal.str s) := by
  refine ⟨?_, ?_, ?_, ?_, ?_, ?_, ⟨_, rfl⟩, ⟨_, rfl⟩⟩
  · intro h1 h2
    have hb : (extractGameRecordHtml doc url now).bgg_id
        = extractBggId doc.canonicalHref doc.ogUrlMeta := rfl
    rw [hb, h1, h2]
    decide
  · intro h1 h2
    have hn : (extractGameRecordHtml doc url now).name
        = jsOrS (trimStr doc.h1Text) (jsOrO doc.ogTitle "") := rfl
    rw [hn, h1]
    cases hog : doc.ogTitle with
    | none => rfl
    | some s =>
      rw [hog] at h2
      simp only [Option.getD_some] at h2
      simp [jsOrO, jsOrS, h2]
  · intro h
    have ha : (extractGameRecordHtml doc url now).avg_rating
        = JVal.str (jsOrS (trimStr doc.ratingText) "") := rfl
    rw [ha, h]
    decide
  · intro h
    have hv : (extractGameRecordHtml doc url now).num_voters
        = JVal.str (jsOrS (digitsOnly doc.votersText) "") := rfl
    rw [hv, h]
    decide
  · intro h
    have hy : (extractGameRecordHtml doc url now).year
        = digitsOnly doc.yearText := rfl
    rw [hy, h]
    decide
  · intro h
    have hd : (extractGameRecordHtml doc url now).description
        = jsOrS (sliceChars (trimStr doc.descriptionText) 2000) "" := rfl
    rw [hd, h]
    decide

/-- A document matching no selector at all. -/
def docEmpty : GamePageDoc :=
  ⟨"", none, none, none, "", "", "", [], [], [], ""⟩

theorem extract_sentinel_fields_witness :
    (extractGameRecordHtml docEmpty "u" "t").bgg_id = ""
    ∧ (extractGameRecordHtml docEmpty "u" "t").name = ""
    ∧ (extractGameRecordHtml docEmpty "u" "t").description = "" :=
  ⟨(extract_sentinel_fields docEmpty "u" "t").1 rfl rfl,
   (extract_sentinel_fields docEmpty "u" "t").2.1 (by decide) rfl,
   (extract_sentinel_fields docEmpty "u" "t").2.2.2.2.2.1 (by decide)⟩

/-- C10: `normalizeBggApi` coerces a single `link` object to a one-element
array (main.js line 68); the link's display value (`value || name || ''`)
is appended to the collection selected by its `type` discriminator, and a
link of any other type contributes to no collection. -/
theorem single_link_as_array (t : BggThing) (l : BggLink) :
    normalizeBggApi (some ⟨some { t with link := LinkVal.one l }⟩)
      = normalizeBggApi (some ⟨some { t with link := LinkVal.arr [some l] }⟩)
    ∧ (l.type = "boardgamedesigner" →
        normalizeBggLinks [some l] = ([linkValue l], [], []))
    ∧ (l.type = "boardgamemechanic" →
        normalizeBggLinks [some l] = ([], [linkValue l], []))
    ∧ (l.type = "boardgamecategory" →
        normalizeBggLinks [some l] = ([], [], [linkValue l]))
    ∧ (l.type ≠ "boardgamedesigner" → l.type ≠ "boardgamemechanic" →
        l.type ≠ "boardgamecategory" → normalizeBggLinks [some l] = ([], [], []))
    ∧ (normalizeBggApi (some ⟨some { t with link := LinkVal.one l }⟩)).map
        NormalizedBgg.designers = some (normalizeBggLinks [some l]).1
    ∧ (normalizeBggApi (some ⟨some { t with link := LinkVal.one l }⟩)).map
        NormalizedBgg.mechanics = some (normalizeBggLinks [some l]).2.1
    ∧ (normalizeBggApi (some ⟨some { t with link := LinkVal.one l }⟩)).map
        NormalizedBgg.categories = some (normalizeBggLinks [some l]).2.2 := by
  obtain ⟨tid, tname, tyear, tdesc, tmin, tmax, tpt, tlink, tstats⟩ := t
  refine ⟨rfl, ?_, ?_, ?_, ?_, rfl, rfl, rfl⟩
  · intro h; simp [normalizeBggLinks, h]
  · intro h; simp [normalizeBggLinks, h]
  · intro h; simp [normalizeBggLinks, h]
  · intro h1 h2 h3; simp [normalizeBggLinks, h1, h2, h3]

/-- A designer link carrying only a `value` attribute. -/
def linkDesigner : BggLink := ⟨"boardgamedesigner", some "Alice", none⟩

theorem single_link_as_array_witness :
    normalizeBggApi (some ⟨some { thingApi with link := LinkVal.one linkDesigner }⟩)
      = normalizeBggApi (some ⟨some { thingApi with link := LinkVal.arr [some linkDesigner] }⟩)
    ∧ normalizeBggLinks [some linkDesigner] = ([linkValue linkDesigner], [], []) :=
  ⟨(single_link_as_array thingApi linkDesigner).1,
   (single_link_as_array thingApi linkDesigner).2.1 rfl⟩

/-- C6: the listing row loop emits exactly the rows whose first item-link
href is present (truthy) and resolves against the listing URL — a missing
or unresolvable link suppresses the row — while the rank text never causes
rejection: it is digit-filtered and an emitted row's rank is always a
digits-only string (empty when the rank is absent or non-numeric). -/
theorem listing_rows_link_filter (resolveUrl : String → String → Option String)
    (pageUrl now : String) (rows : List ListingRowDom) :
    (listingPageRows resolveUrl pageUrl now rows).length
      = rows.countP (fun row => (rowAbsLink resolveUrl pageUrl row).isSome)
    ∧ ∀ rec ∈ listingPageRows resolveUrl pageUrl now rows,
        rec.rank.data.all Char.isDigit = true := by
  constructor
  · induction rows with
    | nil => rfl
    | cons r rs ih =>
      rw [listingPageRows] at ih ⊢
      rw [List.filterMap_cons, List.countP_cons]
      cases h : rowAbsLink resolveUrl pageUrl r with
      | none => simp [h, ih]
      | some abs => simp [h, ih]
  · intro rec hrec
    obtain ⟨row, _, heq⟩ := List.mem_filterMap.mp hrec
    cases h : rowAbsLink resolveUrl pageUrl row with
    | none => rw [h] at heq; exact Option.noConfusion heq
    | some abs =>
      rw [h] at heq
      have hrank : rec.rank = jsOrS (digitsOnly (trimStr row.rankText)) "" := by
        cases heq
        rfl
      rw [hrank]
      unfold jsOrS
      split
      · rfl
      · exact digitsOnly_all (trimStr row.rankText)

/-- The two listing rows of the specification scenario: row A has a
root-relative item link and rank text `" 1. "`, row B has no link. -/
def rowA : ListingRowDom := ⟨some "/boardgame/42", "Game A", " 1. ", ""⟩

def rowB : ListingRowDom := ⟨none, "Game B", "2", ""⟩

/-- The record row A produces when the listing is
`https://example.test/hot`. -/
def rowARecord : RowRecord :=
  ⟨"Game A", "https://example.test/boardgame/42", "1", "",
    "https://example.test/hot", "t"⟩

theorem listing_rows_link_filter_witness :
    (listingPageRows resolveUrlModel "https://example.test/hot" "t"
        [rowA, rowB]).length
      = [rowA, rowB].countP
          (fun row => (rowAbsLink resolveUrlModel "https://example.test/hot" row).isSome)
    ∧ rowARecord.rank.data.all Char.isDigit = true :=
  ⟨(listing_rows_link_filter resolveUrlModel "https://example.test/hot" "t"
      [rowA, rowB]).1,
   (listing_rows_link_filter resolveUrlModel "https://example.test/hot" "t"
      [rowA, rowB]).2 rowARecord (by decide)⟩

/-- C9 counterexample: the fallback pattern (main.js line 97) lacks the
bare trailing-numeric alternative of the canonical pattern (line 91), so
`https://example.test/boardgame/42` yields id `42` when it arrives via the
canonical link but the empty id via the `og:url` fallback — the two paths
are not the same pattern. -/
theorem id_pattern_fallback_counterexample :
    extractBggId (some "https://example.test/boardgame/42") none = "42"
    ∧ extractBggId none (some "https://example.test/boardgame/42") = ""
    ∧ extractBggId (some "https://example.test/boardgame/42") none
        ≠ extractBggId none (some "https://example.test/boardgame/42") := by
  refine ⟨by decide, by decide, by decide⟩

/-- C9 amended: identifier resolution tries the canonical link first with
the two-alternative pattern and falls back to the metadata URL with only
the typed-segment alternative `\/boardgame\/(?:.*)\/(\d+)`; on every URL
that the fallback pattern matches, both paths produce the same identifier
(the canonical two-alternative pattern agrees with the single-alternative
one wherever the latter succeeds). -/
theorem id_fallback_agreement (u : String) (d : List Char)
    (h : jsMatchSlug u.data = some d) :
    extractBggId (some u) none = extractBggId none (some u)
    ∧ extractBggId none (some u) = String.mk d := by
  have hu : u ≠ "" := by
    intro he
    rw [he] at h
    have hnil : jsMatchSlug ("" : String).data = none := rfl
    rw [hnil] at h
    exact Option.noConfusion h
  have hboth : jsMatchBoth u.data = some d := jsMatchBoth_of_slug h
  have hdnil : d ≠ [] := by
    obtain ⟨t, m₁, _, _, hd₁⟩ := jsMatchSlug_decomp h
    exact lastSlashDigits_some_ne_nil hd₁
  have hmk : String.mk d ≠ "" := by
    intro he
    apply hdnil
    simpa using congrArg String.data he
  have hfall : extractBggId none (some u) = String.mk d := by
    simp [extractBggId, jsOrO, jsOrS, hu, h]
  refine ⟨?_, hfall⟩
  rw [hfall]
  simp [extractBggId, jsOrO, jsOrS, hu, hboth, hmk]

theorem id_fallback_agreement_witness :
    extractBggId (some "https://example.test/boardgame/foo/42") none
      = extractBggId none (some "https://example.test/boardgame/foo/42")
    ∧ extractBggId none (some "https://example.test/boardgame/foo/42")
      = String.mk ['4', '2'] :=
  id_fallback_agreement "https://example.test/boardgame/foo/42" ['4', '2']
    (by decide)

/-! ### C7: link enqueue policy -/

/-- The one-listing web used by the C7 counterexample and witness: the
seed listing page links to one item page on the same host. -/
def webCE : String → List String := fun u =>
  if u = "https://example.test/hot" then ["https://example.test/boardgame/42"]
  else []

def seedCE : String := "https://example.test/hot"

/-- C7 counterexample: in the Cheerio path, `enqueueLinks` passes no
`userData` (main.js lines 157–170), so the request discovered from the
seed carries no `startHost` even though the seed request carries
`some "example.test"` — the origin host is not propagated to transitively
discovered pages as the claim states. -/
theorem start_host_not_propagated_counterexample :
    (handleRequest hostOf true webCE (mkStartRequest hostOf seedCE)).map
        Req.startHost = [none]
    ∧ (mkStartRequest hostOf seedCE).startHost = some "example.test"
    ∧ ((none : Option String) ≠ some "example.test") := by
  refine ⟨by decide, by decide, by decide⟩

/-- C7 amended: under `SameOriginOnly` mode (`followInternalOnly`), an
unparsable candidate URL is always rejected; and although discovered
requests carry no `startHost`, every URL the globs let through is an
item-page URL, which enqueues nothing — so the follow policy only ever
runs on seed requests, where the effective origin host (the stored
`startHost`, or the fallback recomputation from `request.url`, which for a
seed is the seed URL itself) is the seed's own host.  Hence every followed
candidate's host equals the origin host of the seed from which the page
was reached, for every parse function and every web. -/
theorem same_origin_policy (parseHost : String → Option String)
    (web : String → List String) (seeds : List String) :
    (∀ req c, parseHost c = none → transformRequest parseHost true req c = none)
    ∧ (∀ r r', ReachableReq parseHost web seeds r →
        r' ∈ handleRequest parseHost true web r →
        ∃ s, s ∈ seeds ∧ r.url = s
          ∧ ∃ hst, parseHost s = some hst ∧ parseHost r'.url = some hst) := by
  constructor
  · intro req c hc
    unfold transformRequest
    rw [if_pos rfl]
    split
    · rfl
    · rw [hc]
  · intro r r' hr hmem
    have hgame : isGamePageUrl r.url = false := by
      by_contra hg
      rw [Bool.not_eq_false] at hg
      unfold handleRequest at hmem
      rw [if_pos hg] at hmem
      exact List.not_mem_nil r' hmem
    obtain ⟨s, hs, hreq⟩ :=
      reachable_listing_is_seed parseHost web seeds r hr hgame
    subst hreq
    unfold handleRequest at hmem
    rw [if_neg (by rw [hgame]; exact Bool.false_ne_true)] at hmem
    unfold listingEnqueues at hmem
    obtain ⟨c, _, heq⟩ := List.mem_filterMap.mp hmem
    obtain ⟨u', htr, hr'⟩ := Option.map_eq_some'.mp heq
    obtain ⟨huc, sh, hsh, heff⟩ := transformRequest_some htr
    subst huc
    refine ⟨s, hs, rfl, sh, ?_, ?_⟩
    · cases hps : parseHost s with
      | none =>
        rw [show (mkStartRequest parseHost s).startHost = parseHost s from rfl,
          hps] at heff
        rw [show (mkStartRequest parseHost s).url = s from rfl, hps] at heff
        exact Option.noConfusion heff
      | some h0 =>
        rw [show (mkStartRequest parseHost s).startHost = parseHost s from rfl,
          hps] at heff
        dsimp only at heff
        by_cases h0e : h0 = ""
        · rw [if_pos h0e,
            show (mkStartRequest parseHost s).url = s from rfl, hps] at heff
          exact heff
        · rw [if_neg h0e] at heff
          exact heff
    · rw [← hr']
      exact hsh

theorem same_origin_policy_witness :
    (transformRequest hostOf true (mkStartRequest hostOf seedCE) "::bad::" = none)
    ∧ (∃ s, s ∈ [seedCE] ∧ (mkStartRequest hostOf seedCE).url = s
        ∧ ∃ hst, hostOf s = some hst
          ∧ hostOf (Req.mk "https://example.test/boardgame/42" none).url
              = some hst) :=
  ⟨(same_origin_policy hostOf webCE [seedCE]).1
      (mkStartRequest hostOf seedCE) "::bad::" rfl,
   (same_origin_policy hostOf webCE [seedCE]).2
      (mkStartRequest hostOf seedCE)
      (Req.mk "https://example.test/boardgame/42" none)
      (ReachableReq.seed seedCE (by decide))
      (by decide)⟩
